import Mathlib

/-!
Verification of the foggytcp measurement pipeline (CheckPoint1 scripts).

The definitions below are shallow embeddings of the Python sources:
* `therotical_model/model.py`          — `theoretical_time`
* `results/data_praser.py`             — `findMatches`, `classifyMatches`,
  `parse_experimental_log`, `aggregateExperimental`, `get_test_subset_pairs`
* `experiment/results/2csv.py`         — `parse_log_line`, `convert_log_rows`
* `plotter/plot_results.py`            — `process_experimental_data`
* `report/not_hairry_plotter/foggytcp_performance_analysis.py` — `get_theory_value`
* `experiment/CP1_client.py`           — `get_next_test_id`, `run_client_test`
* `CP1_data_autoscript.py`             — `run_client_test` (non-fatal variant)
* `CP1_server.py`                      — the indexed receive loop

Machine reals (Python floats) are modelled by `Rat`; fallible operations by
`Option`; file IO by explicit `Option` file contents; printed diagnostics by
explicit output lists.
-/

namespace FoggyTCP

/-! ### Python string helpers -/

/-- The character list of a string literal. -/
def litList (s : String) : List Char := s.data

/-- Whitespace characters removed by Python `str.strip()` (ASCII subset). -/
def isPyWhitespace (c : Char) : Bool :=
  c = ' ' || c = '\t' || c = '\n' || c = '\r' || c = Char.ofNat 11 || c = Char.ofNat 12

/-- Python `str.strip()`: drop whitespace from both ends. -/
def pyStrip (cs : List Char) : List Char :=
  ((cs.dropWhile isPyWhitespace).reverse.dropWhile isPyWhitespace).reverse

/-- Value of a list of decimal digit characters, as Python `int` of the digits. -/
def digitsToNat (ds : List Char) : Nat :=
  ds.foldl (fun acc c => acc * 10 + (c.toNat - 48)) 0

/-- Match a literal character sequence at the front, returning the rest. -/
def matchLit : List Char → List Char → Option (List Char)
  | [], cs => some cs
  | _ :: _, [] => none
  | l :: ls, c :: cs => if c = l then matchLit ls cs else none

/-- Regex `\d+` (greedy) at the front: since every continuation of the two
patterns below starts with a non-digit character, greedy matching with no
backtracking is equivalent to taking the maximal digit run. -/
def takeDigits (cs : List Char) : Option (Nat × List Char) :=
  if (cs.takeWhile Char.isDigit).isEmpty then none
  else some (digitsToNat (cs.takeWhile Char.isDigit), cs.dropWhile Char.isDigit)

/-- Regex `\d{n}`: exactly `n` digit characters, returning them and the rest. -/
def takeDigitsN : Nat → List Char → Option (List Char × List Char)
  | 0, cs => some ([], cs)
  | _ + 1, [] => none
  | n + 1, c :: cs =>
    if c.isDigit then (takeDigitsN n cs).map (fun p => (c :: p.1, p.2)) else none

/-! ### `therotical_model/model.py` -/

/-- `model.py` line 21: `theoretical_time(file_size, bandwidth, propagation_delay)
= file_size / bandwidth + 2 * propagation_delay` (seconds). The generator
functions multiply the result by 1000 to obtain milliseconds. -/
def theoretical_time (file_size bandwidth propagation_delay : Rat) : Rat :=
  file_size / bandwidth + 2 * propagation_delay

/-- The spec's own formula, stated verbatim for the refinement comparison:
`time_ms(file_size, bandwidth, delay) = (file_size / bandwidth + 2 * delay) * 1000`. -/
def time_ms_spec (file_size bandwidth delay : Rat) : Rat :=
  (file_size / bandwidth + 2 * delay) * 1000

/-! ### `results/data_praser.py` — log ingestion and range classification

`parse_experimental_log` applies `re.findall` with the pattern
`\[(\d+)\] Complete transmission in (\d+) ms` to the whole file content:
no leading timestamp is required, and matches may start anywhere. -/

/-- Try the pattern `\[(\d+)\] Complete transmission in (\d+) ms` at the
current position, returning the two captured numbers and the rest of the
input after the match. -/
def matchCompleteAt (cs : List Char) : Option ((Nat × Nat) × List Char) :=
  (matchLit (litList "[") cs).bind fun cs1 =>
  (takeDigits cs1).bind fun p1 =>
  (matchLit (litList "] Complete transmission in ") p1.2).bind fun cs2 =>
  (takeDigits cs2).bind fun p2 =>
  (matchLit (litList " ms") p2.2).map fun rest =>
  ((p1.1, p2.1), rest)

/-- `re.findall` scanning: try each position left to right; after a match,
resume after its end (non-overlapping). The fuel is the remaining length,
always sufficient because every step consumes at least one character. -/
def findMatchesAux : Nat → List Char → List (Nat × Nat)
  | 0, _ => []
  | _ + 1, [] => []
  | fuel + 1, c :: cs =>
    match matchCompleteAt (c :: cs) with
    | some (m, rest) => m :: findMatchesAux fuel rest
    | none => findMatchesAux fuel cs

/-- All `(test_id, duration)` pairs recognized in a file content, in order. -/
def findMatches (cs : List Char) : List (Nat × Nat) :=
  findMatchesAux cs.length cs

/-- The three sweep groups of the reference matrix. -/
inductive TestGroup
  | fileSize
  | bandwidth
  | delay
deriving DecidableEq

/-- The range partition of `parse_experimental_log` (lines 69-76):
indices 0-5 are Test 1 (file sizes), 6-9 Test 2 (bandwidths),
10-15 Test 3 (delays); anything else is an unknown-index warning. -/
def classifyIndex (i : Nat) : Option TestGroup :=
  if 0 ≤ i ∧ i ≤ 5 then some TestGroup.fileSize
  else if 6 ≤ i ∧ i ≤ 9 then some TestGroup.bandwidth
  else if 10 ≤ i ∧ i ≤ 15 then some TestGroup.delay
  else none

/-- The result of `parse_experimental_log`: the three per-test duration
lists, plus the unknown-index diagnostics it prints. -/
structure TestData where
  test1 : List Rat
  test2 : List Rat
  test3 : List Rat
  unknown : List Nat
deriving DecidableEq

def emptyTestData : TestData := ⟨[], [], [], []⟩

/-- One iteration of the classification loop (lines 64-76): append the
duration to the group selected by the index range, or record a warning. -/
def classifyStep (td : TestData) (m : Nat × Nat) : TestData :=
  if 0 ≤ m.1 ∧ m.1 ≤ 5 then { td with test1 := td.test1 ++ [(m.2 : Rat)] }
  else if 6 ≤ m.1 ∧ m.1 ≤ 9 then { td with test2 := td.test2 ++ [(m.2 : Rat)] }
  else if 10 ≤ m.1 ∧ m.1 ≤ 15 then { td with test3 := td.test3 ++ [(m.2 : Rat)] }
  else { td with unknown := td.unknown ++ [m.1] }

/-- The classification loop over the recognized matches. -/
def classifyMatches (ms : List (Nat × Nat)) : TestData :=
  ms.foldl classifyStep emptyTestData

/-- `parse_experimental_log` on the content of an existing file. -/
def parseExperimentalContent (content : List Char) : TestData :=
  classifyMatches (findMatches content)

/-- `parse_experimental_log` (lines 55-83): a missing file raises
`FileNotFoundError`, which is caught, leaving the initial empty
`test_data` — zero records, no propagated error. -/
def parse_experimental_log (file : Option (List Char)) : TestData :=
  match file with
  | some content => parseExperimentalContent content
  | none => emptyTestData

/-- `parse_all_results` (lines 238-248): for each expected experimental
file, skip it unless it exists (`os.path.exists`), otherwise parse it and
extend each test's aggregated duration list. -/
def aggregateExperimental (files : List (Option (List Char))) : TestData :=
  files.foldl
    (fun acc file =>
      match file with
      | some content =>
        let d := parseExperimentalContent content
        ⟨acc.test1 ++ d.test1, acc.test2 ++ d.test2,
         acc.test3 ++ d.test3, acc.unknown ++ d.unknown⟩
      | none => acc)
    emptyTestData

/-- The contents of the files that are present, in order. -/
def presentContents (files : List (Option (List Char))) : List (List Char) :=
  files.filterMap id

/-- In-order durations of the matches classified into group `g` —
used to characterize the classification loop. -/
def groupDurations (g : TestGroup) (ms : List (Nat × Nat)) : List Rat :=
  ms.filterMap fun m =>
    if classifyIndex m.1 = some g then some ((m.2 : Rat)) else none

/-- In-order identifiers of the matches outside every configured range. -/
def unknownIndices (ms : List (Nat × Nat)) : List Nat :=
  ms.filterMap fun m =>
    if classifyIndex m.1 = none then some m.1 else none

/-! ### `experiment/results/2csv.py` — strict per-line converter -/

/-- Regex `\d{4}-\d{2}-\d{2}`: the date part of the timestamp capture. -/
def matchDate (cs : List Char) : Option (List Char × List Char) :=
  (takeDigitsN 4 cs).bind fun py =>
  (matchLit (litList "-") py.2).bind fun cs3 =>
  (takeDigitsN 2 cs3).bind fun pmo =>
  (matchLit (litList "-") pmo.2).bind fun cs5 =>
  (takeDigitsN 2 cs5).map fun pda =>
  (py.1 ++ '-' :: pmo.1 ++ '-' :: pda.1, pda.2)

/-- Regex `\d{2}:\d{2}:\d{2}`: the clock part of the timestamp capture. -/
def matchClock (cs : List Char) : Option (List Char × List Char) :=
  (takeDigitsN 2 cs).bind fun ph =>
  (matchLit (litList ":") ph.2).bind fun cs9 =>
  (takeDigitsN 2 cs9).bind fun pmi =>
  (matchLit (litList ":") pmi.2).bind fun cs11 =>
  (takeDigitsN 2 cs11).map fun ps =>
  (ph.1 ++ ':' :: pmi.1 ++ ':' :: ps.1, ps.2)

/-- Regex `\d{4}-\d{2}-\d{2} \d{2}:\d{2}:\d{2}`: the full timestamp group. -/
def matchTimestamp (cs : List Char) : Option (List Char × List Char) :=
  (matchDate cs).bind fun pd =>
  (matchLit (litList " ") pd.2).bind fun cs7 =>
  (matchClock cs7).map fun pc =>
  (pd.1 ++ ' ' :: pc.1, pc.2)

/-- Regex `(\d+)\] Complete transmission in (\d+) ms`: the id and duration
groups with their separating literals. -/
def matchIdDur (cs : List Char) : Option ((Nat × Nat) × List Char) :=
  (takeDigits cs).bind fun pid =>
  (matchLit (litList "] Complete transmission in ") pid.2).bind fun cs15 =>
  (takeDigits cs15).bind fun pdur =>
  (matchLit (litList " ms") pdur.2).map fun rest =>
  ((pid.1, pdur.1), rest)

/-- `parse_log_line` (2csv lines 18-29): `re.match` of the pattern
`\[(<timestamp>)\] \[(\d+)\] Complete transmission in (\d+) ms` against
`line.strip()`. `re.match` anchors at the start only, so trailing text
after ` ms` is permitted. Returns (timestamp capture, id, duration). -/
def parse_log_line (line : List Char) : Option (List Char × Nat × Nat) :=
  (matchLit (litList "[") (pyStrip line)).bind fun cs1 =>
  (matchTimestamp cs1).bind fun pts =>
  (matchLit (litList "] [") pts.2).bind fun cs13 =>
  (matchIdDur cs13).map fun pm =>
  (pts.1, pm.1.1, pm.1.2)

/-- `convert_log_to_csv` (lines 31-55): one CSV row per line for which
`parse_log_line` returns a result; other lines are skipped silently. -/
def convert_log_rows (lines : List (List Char)) : List (List Char × Nat × Nat) :=
  lines.filterMap parse_log_line

/-! ### `plotter/plot_results.py` — per-point averaging -/

/-- `runs_per_param = 5` (line 55), hard-coded. -/
def runs_per_param : Nat := 5

/-- `np.mean` of a list of floats. -/
def listMean (xs : List Rat) : Rat := xs.sum / (xs.length : Rat)

/-- `reshape(num_params, runs_per_param)` of an exactly-sized flat list:
`k` consecutive rows of `n` entries each. -/
def chunkRows : Nat → Nat → List Rat → List (List Rat)
  | 0, _, _ => []
  | k + 1, n, xs => xs.take n :: chunkRows k n (xs.drop n)

/-- `process_experimental_data` (lines 50-61): slice the flat duration list
to `num_params * 5` entries, reshape into rows of 5 consecutive
measurements, and average each row. `np.reshape` raises `ValueError`
(modelled as `none`) when fewer entries are available. -/
def process_experimental_data (experimental : List Rat) (num_params : Nat) :
    Option (List Rat) :=
  let sliced := experimental.take (num_params * runs_per_param)
  if sliced.length = num_params * runs_per_param then
    some ((chunkRows num_params runs_per_param sliced).map listMean)
  else none

/-- `organize_test_data` (lines 155-166): the structured record for one
test keeps the full experimental duration list, the theoretical times and
the theoretical parameter values. -/
structure OrganizedTest where
  experimental : List Rat
  theoretical : List Rat
  theoreticalParams : List Rat
deriving DecidableEq

def organize_test_data (experimentalTimes : List Rat)
    (theoreticalPoints : List (Rat × Rat)) : OrganizedTest :=
  ⟨experimentalTimes, theoreticalPoints.map Prod.snd,
   theoreticalPoints.map Prod.fst⟩

/-! ### correlators -/

/-- Python `abs` on a float, as a kernel-computable rational operation. -/
def ratAbs (q : Rat) : Rat := if q < 0 then -q else q

/-- `min(range(len(tps)), key=lambda i: abs(tps[i] - pv))`: the first index
minimizing the absolute difference (Python `min` keeps the earliest
minimum). Returns 0 on an empty list (the callers guard against that). -/
def argminAbs (tps : List Rat) (pv : Rat) : Nat :=
  (List.range tps.length).foldl
    (fun best i =>
      if ratAbs (tps.getD i 0 - pv) < ratAbs (tps.getD best 0 - pv) then i else best)
    0

/-- Python `round` (banker's rounding, half to even) of a rational. -/
def roundHalfEven (q : Rat) : Int :=
  let f := ⌊q⌋
  let r := q - (f : Rat)
  if r < 1 / 2 then f
  else if 1 / 2 < r then f + 1
  else if f % 2 = 0 then f else f + 1

/-- `round(x, 3)`. -/
def round3 (q : Rat) : Rat := ((roundHalfEven (q * 1000) : Int) : Rat) / 1000

/-- `get_test_subset` (data_praser lines 318-336), theoretical part: for
each requested parameter value, find the closest theoretical parameter,
and append its time and parameter only when the distance is strictly
within the 0.01 tolerance; otherwise the point is skipped. Returns
(subset_theoretical, subset_params). -/
def get_test_subset_pairs (tparams ttimes : List Rat) (vals : List Rat) :
    List Rat × List Rat :=
  vals.foldl
    (fun acc v =>
      if tparams.isEmpty then acc
      else
        let k := argminAbs tparams v
        if ratAbs (tparams.getD k 0 - v) < 1 / 100 then
          (acc.1 ++ [ttimes.getD k 0], acc.2 ++ [tparams.getD k 0])
        else acc)
    ([], [])

/-- `get_theory_value` for one requested value
(`foggytcp_performance_analysis.py` lines 157-167): take the time of the
first theoretical row whose parameter rounds (3 decimals) to the same
value; otherwise fall back to the row whose parameter is nearest by
absolute difference (`idxmin`, first minimum). -/
def getTheoryOne (theory : List (Rat × Rat)) (v : Rat) : Rat :=
  match theory.find? (fun p => decide (round3 p.1 = round3 v)) with
  | some p => p.2
  | none => (theory.getD (argminAbs (theory.map Prod.fst) v) (0, 0)).2

/-- `get_theory_value` over a list of requested parameter values. -/
def get_theory_value (theory : List (Rat × Rat)) (vals : List Rat) : List Rat :=
  vals.map (getTheoryOne theory)

/-! ### `experiment/CP1_client.py` — test-id allocator and transfer driver -/

/-- `get_next_test_id` (lines 75-80): returns the counter and increments it. -/
def get_next_test_id (counter : Nat) : Nat × Nat :=
  (counter, counter + 1)

/-- Module-level `test_id_counter = 0` (line 36). -/
def initialTestIdCounter : Nat := 0

/-- Repeated invocation of `get_next_test_id`, threading the counter. -/
def allocRun : Nat → Nat → List Nat
  | 0, _ => []
  | n + 1, s =>
    let p := get_next_test_id s
    p.1 :: allocRun n p.2

/-- The ids returned by `n` allocator calls within one process lifetime. -/
def allocatedIds (n : Nat) : List Nat := allocRun n initialTestIdCounter

/-- Abstract outcome of one `subprocess.run` transfer invocation. -/
inductive TransferOutcome
  | exited (code : Int)
  | timedOut
  | excepted
deriving DecidableEq

/-- What the driver does after a transfer attempt: go on, or `sys.exit(1)`. -/
inductive DriverAction
  | proceed
  | exitOne
deriving DecidableEq

/-- `timeout=60` in both drivers' `subprocess.run` calls. -/
def clientTimeoutSeconds : Nat := 60

/-- `experiment/CP1_client.py` `run_client_test` (lines 139-164): returncode 0
returns `True`; a non-zero returncode, a `TimeoutExpired`, or any other
exception prints `[FATAL]` and calls `sys.exit(1)`. -/
def run_client_test_experiment : TransferOutcome → DriverAction
  | .exited code => if code = 0 then .proceed else .exitOne
  | .timedOut => .exitOne
  | .excepted => .exitOne

/-- `CP1_data_autoscript.py` `run_client_test` (lines 94-108): every branch
prints a status line and returns normally; the suite continues. -/
def run_client_test_autoscript : TransferOutcome → DriverAction
  | .exited _ => .proceed
  | .timedOut => .proceed
  | .excepted => .proceed

/-! ### `CP1_server.py` — indexed receive loop -/

/-- One `[timestamp] [index] body` line written by `record_results` in the
server's main loop. -/
structure ServerLogLine where
  timestamp : List Char
  index : Nat
  body : List Char
deriving DecidableEq

/-- `CP1_server.py` `main` (lines 93-106): `index = 0`, then for each
`listener()` return, record one line carrying the current index and
increment. An event is the pair (timestamp at completion, listener result). -/
def serverLoop : List (List Char × List Char) → Nat → List ServerLogLine
  | [], _ => []
  | e :: rest, idx => ⟨e.1, idx, e.2⟩ :: serverLoop rest (idx + 1)

/-- A finite run of the server loop, starting from `index = 0`. -/
def serverRun (events : List (List Char × List Char)) : List ServerLogLine :=
  serverLoop events 0

/-! ### helper lemmas -/

theorem matchLit_sound :
    ∀ (ls cs rest : List Char), matchLit ls cs = some rest → cs = ls ++ rest := by
  intro ls
  induction ls with
  | nil =>
    intro cs rest h
    simp only [matchLit, Option.some.injEq] at h
    simp [h]
  | cons l ls ih =>
    intro cs rest h
    cases cs with
    | nil => simp [matchLit] at h
    | cons c cs =>
      simp only [matchLit] at h
      by_cases hc : c = l
      · rw [if_pos hc] at h
        subst hc
        simpa using ih cs rest h
      · rw [if_neg hc] at h
        cases h

theorem takeDigitsN_sound :
    ∀ (n : Nat) (cs ds rest : List Char), takeDigitsN n cs = some (ds, rest) →
      cs = ds ++ rest ∧ ds.length = n ∧ ∀ c ∈ ds, c.isDigit := by
  intro n
  induction n with
  | zero =>
    intro cs ds rest h
    simp only [takeDigitsN, Option.some.injEq, Prod.mk.injEq] at h
    obtain ⟨h1, h2⟩ := h
    subst h1; subst h2
    simp
  | succ n ih =>
    intro cs ds rest h
    cases cs with
    | nil => simp [takeDigitsN] at h
    | cons c cs =>
      simp only [takeDigitsN] at h
      by_cases hc : c.isDigit
      · rw [if_pos hc, Option.map_eq_some'] at h
        obtain ⟨p, hp, hf⟩ := h
        obtain ⟨hcs, hlen, hdig⟩ := ih cs p.1 p.2 (by rw [hp])
        rw [Prod.mk.injEq] at hf
        obtain ⟨h1, h2⟩ := hf
        subst h1; subst h2
        refine ⟨by simp [hcs], by simp [hlen], ?_⟩
        intro x hx
        rcases List.mem_cons.mp hx with h | h
        · subst h; exact hc
        · exact hdig x h
      · rw [if_neg hc] at h
        cases h

theorem takeDigits_sound (cs : List Char) (v : Nat) (rest : List Char)
    (h : takeDigits cs = some (v, rest)) :
    ∃ ds, ds ≠ [] ∧ (∀ c ∈ ds, c.isDigit) ∧ cs = ds ++ rest ∧ v = digitsToNat ds := by
  unfold takeDigits at h
  by_cases he : (cs.takeWhile Char.isDigit).isEmpty
  · rw [if_pos he] at h; cases h
  · rw [if_neg he] at h
    simp only [Option.some.injEq, Prod.mk.injEq] at h
    obtain ⟨hv, hrest⟩ := h
    refine ⟨cs.takeWhile Char.isDigit, ?_, ?_, ?_, hv.symm⟩
    · intro hnil
      rw [hnil] at he
      exact he rfl
    · intro c hc
      exact List.mem_takeWhile_imp hc
    · rw [← hrest]
      exact (List.takeWhile_append_dropWhile Char.isDigit cs).symm

theorem matchLit_complete : ∀ (ls rest : List Char), matchLit ls (ls ++ rest) = some rest := by
  intro ls
  induction ls with
  | nil => intro rest; rfl
  | cons l ls ih =>
    intro rest
    simp only [List.cons_append, matchLit, if_pos rfl]
    exact ih rest

theorem takeDigitsN_complete :
    ∀ (ds rest : List Char), (∀ c ∈ ds, c.isDigit) →
      takeDigitsN ds.length (ds ++ rest) = some (ds, rest) := by
  intro ds
  induction ds with
  | nil => intro rest _; rfl
  | cons d ds ih =>
    intro rest h
    have hd : d.isDigit := h d (List.mem_cons_self d ds)
    have hstep : takeDigitsN (d :: ds).length ((d :: ds) ++ rest) =
        (takeDigitsN ds.length (ds ++ rest)).map (fun p => (d :: p.1, p.2)) := by
      simp [takeDigitsN, hd]
    rw [hstep, ih rest (fun c hc => h c (List.mem_cons_of_mem d hc))]
    rfl

theorem takeWhile_append_all (p : Char → Bool) :
    ∀ (ds rest : List Char), (∀ c ∈ ds, p c) →
      (∀ c, rest.head? = some c → p c = false) →
      (ds ++ rest).takeWhile p = ds ∧ (ds ++ rest).dropWhile p = rest := by
  intro ds
  induction ds with
  | nil =>
    intro rest _ hr
    cases rest with
    | nil => exact ⟨rfl, rfl⟩
    | cons r rs =>
      have hpr := hr r rfl
      constructor
      · simp [List.takeWhile_cons, hpr]
      · simp [List.dropWhile_cons, hpr]
  | cons d ds ih =>
    intro rest h hr
    have hd : p d := h d (List.mem_cons_self d ds)
    obtain ⟨h1, h2⟩ := ih rest (fun c hc => h c (List.mem_cons_of_mem d hc)) hr
    constructor
    · simp [List.takeWhile_cons, hd, h1]
    · simp [List.dropWhile_cons, hd, h2]

theorem takeDigits_complete (ds rest : List Char) (hne : ds ≠ [])
    (hdig : ∀ c ∈ ds, c.isDigit)
    (hrest : ∀ c, rest.head? = some c → c.isDigit = false) :
    takeDigits (ds ++ rest) = some (digitsToNat ds, rest) := by
  obtain ⟨h1, h2⟩ := takeWhile_append_all Char.isDigit ds rest hdig hrest
  have hempty : ds.isEmpty = false := by
    cases ds with
    | nil => exact absurd rfl hne
    | cons d ds => rfl
  unfold takeDigits
  rw [h1, h2, hempty]
  rfl

theorem matchDate_sound (cs ts rest : List Char)
    (h : matchDate cs = some (ts, rest)) :
    cs = ts ++ rest ∧
      ∃ y mo da, ts = y ++ '-' :: mo ++ '-' :: da ∧
        y.length = 4 ∧ mo.length = 2 ∧ da.length = 2 ∧
        (∀ c ∈ y, c.isDigit) ∧ (∀ c ∈ mo, c.isDigit) ∧ (∀ c ∈ da, c.isDigit) := by
  simp only [matchDate, Option.bind_eq_some, Option.map_eq_some'] at h
  obtain ⟨py, hpy, cs3, hcs3, pmo, hpmo, cs5, hcs5, pda, hpda, hfin⟩ := h
  obtain ⟨h1, h2, h3⟩ := takeDigitsN_sound 4 cs py.1 py.2 (by rw [hpy])
  have h4 := matchLit_sound _ _ _ hcs3
  obtain ⟨h5, h6, h7⟩ := takeDigitsN_sound 2 cs3 pmo.1 pmo.2 (by rw [hpmo])
  have h8 := matchLit_sound _ _ _ hcs5
  obtain ⟨h9, h10, h11⟩ := takeDigitsN_sound 2 cs5 pda.1 pda.2 (by rw [hpda])
  rw [Prod.mk.injEq] at hfin
  obtain ⟨hts, hrest⟩ := hfin
  subst hts; subst hrest
  constructor
  · rw [h1, h4, h5, h8, h9]
    simp [litList]
  · exact ⟨py.1, pmo.1, pda.1, by simp, h2, h6, h10, h3, h7, h11⟩

theorem matchClock_sound (cs ts rest : List Char)
    (h : matchClock cs = some (ts, rest)) :
    cs = ts ++ rest ∧
      ∃ hh mi ss, ts = hh ++ ':' :: mi ++ ':' :: ss ∧
        hh.length = 2 ∧ mi.length = 2 ∧ ss.length = 2 ∧
        (∀ c ∈ hh, c.isDigit) ∧ (∀ c ∈ mi, c.isDigit) ∧ (∀ c ∈ ss, c.isDigit) := by
  simp only [matchClock, Option.bind_eq_some, Option.map_eq_some'] at h
  obtain ⟨ph, hph, cs9, hcs9, pmi, hpmi, cs11, hcs11, ps, hps, hfin⟩ := h
  obtain ⟨h1, h2, h3⟩ := takeDigitsN_sound 2 cs ph.1 ph.2 (by rw [hph])
  have h4 := matchLit_sound _ _ _ hcs9
  obtain ⟨h5, h6, h7⟩ := takeDigitsN_sound 2 cs9 pmi.1 pmi.2 (by rw [hpmi])
  have h8 := matchLit_sound _ _ _ hcs11
  obtain ⟨h9, h10, h11⟩ := takeDigitsN_sound 2 cs11 ps.1 ps.2 (by rw [hps])
  rw [Prod.mk.injEq] at hfin
  obtain ⟨hts, hrest⟩ := hfin
  subst hts; subst hrest
  constructor
  · rw [h1, h4, h5, h8, h9]
    simp [litList]
  · exact ⟨ph.1, pmi.1, ps.1, by simp, h2, h6, h10, h3, h7, h11⟩

/-- The shape of the timestamp capture group
`\d{4}-\d{2}-\d{2} \d{2}:\d{2}:\d{2}`. -/
def TimestampShape (ts : List Char) : Prop :=
  ∃ date clock, ts = date ++ ' ' :: clock ∧
    (∃ y mo da, date = y ++ '-' :: mo ++ '-' :: da ∧
      y.length = 4 ∧ mo.length = 2 ∧ da.length = 2 ∧
      (∀ c ∈ y, c.isDigit) ∧ (∀ c ∈ mo, c.isDigit) ∧ (∀ c ∈ da, c.isDigit)) ∧
    (∃ hh mi ss, clock = hh ++ ':' :: mi ++ ':' :: ss ∧
      hh.length = 2 ∧ mi.length = 2 ∧ ss.length = 2 ∧
      (∀ c ∈ hh, c.isDigit) ∧ (∀ c ∈ mi, c.isDigit) ∧ (∀ c ∈ ss, c.isDigit))

theorem matchTimestamp_sound (cs ts rest : List Char)
    (h : matchTimestamp cs = some (ts, rest)) :
    cs = ts ++ rest ∧ TimestampShape ts := by
  simp only [matchTimestamp, Option.bind_eq_some, Option.map_eq_some'] at h
  obtain ⟨pd, hpd, cs7, hcs7, pc, hpc, hfin⟩ := h
  obtain ⟨hd1, hd2⟩ := matchDate_sound _ _ _ hpd
  have h4 := matchLit_sound _ _ _ hcs7
  obtain ⟨hc1, hc2⟩ := matchClock_sound _ _ _ hpc
  rw [Prod.mk.injEq] at hfin
  obtain ⟨hts, hrest⟩ := hfin
  subst hts; subst hrest
  constructor
  · rw [hd1, h4, hc1]
    simp [litList]
  · exact ⟨pd.1, pc.1, by simp, hd2, hc2⟩

theorem matchIdDur_sound (cs rest : List Char) (i d : Nat)
    (h : matchIdDur cs = some ((i, d), rest)) :
    ∃ ds1 ds2,
      cs = ds1 ++ litList "] Complete transmission in " ++ ds2 ++
        litList " ms" ++ rest ∧
      ds1 ≠ [] ∧ (∀ c ∈ ds1, c.isDigit) ∧ i = digitsToNat ds1 ∧
      ds2 ≠ [] ∧ (∀ c ∈ ds2, c.isDigit) ∧ d = digitsToNat ds2 := by
  simp only [matchIdDur, Option.bind_eq_some, Option.map_eq_some'] at h
  obtain ⟨pid, hpid, cs15, hcs15, pdur, hpdur, r, hr, hfin⟩ := h
  obtain ⟨ds1, hn1, hd1, he1, hv1⟩ := takeDigits_sound cs pid.1 pid.2 (by rw [hpid])
  have h4 := matchLit_sound _ _ _ hcs15
  obtain ⟨ds2, hn2, hd2, he2, hv2⟩ := takeDigits_sound cs15 pdur.1 pdur.2 (by rw [hpdur])
  have h8 := matchLit_sound _ _ _ hr
  rw [Prod.mk.injEq] at hfin
  obtain ⟨hid, hrest⟩ := hfin
  rw [Prod.mk.injEq] at hid
  obtain ⟨hi, hd⟩ := hid
  subst hi; subst hd; subst hrest
  refine ⟨ds1, ds2, ?_, hn1, hd1, hv1, hn2, hd2, hv2⟩
  rw [he1, h4, he2, h8]
  simp

theorem parse_log_line_sound (line ts : List Char) (i d : Nat)
    (h : parse_log_line line = some (ts, i, d)) :
    TimestampShape ts ∧
      ∃ ds1 ds2 rest,
        pyStrip line = '[' :: (ts ++ litList "] [" ++ ds1 ++
          litList "] Complete transmission in " ++ ds2 ++
          litList " ms" ++ rest) ∧
        ds1 ≠ [] ∧ (∀ c ∈ ds1, c.isDigit) ∧ i = digitsToNat ds1 ∧
        ds2 ≠ [] ∧ (∀ c ∈ ds2, c.isDigit) ∧ d = digitsToNat ds2 := by
  simp only [parse_log_line, Option.bind_eq_some, Option.map_eq_some'] at h
  obtain ⟨cs1, hcs1, pts, hpts, cs13, hcs13, pm, hpm, hfin⟩ := h
  have h1 := matchLit_sound _ _ _ hcs1
  obtain ⟨h2, hshape⟩ := matchTimestamp_sound _ _ _ hpts
  have h3 := matchLit_sound _ _ _ hcs13
  rw [Prod.mk.injEq] at hfin
  obtain ⟨hts, hid⟩ := hfin
  rw [Prod.mk.injEq] at hid
  obtain ⟨hi, hd⟩ := hid
  subst hts; subst hi; subst hd
  obtain ⟨ds1, ds2, he, hn1, hdg1, hv1, hn2, hdg2, hv2⟩ :=
    matchIdDur_sound cs13 pm.2 pm.1.1 pm.1.2 (by rw [hpm])
  refine ⟨hshape, ds1, ds2, pm.2, ?_, hn1, hdg1, hv1, hn2, hdg2, hv2⟩
  rw [h1, h2, h3, he]
  simp [litList]

theorem matchCompleteAt_sound (cs rest : List Char) (i d : Nat)
    (h : matchCompleteAt cs = some ((i, d), rest)) :
    ∃ ds1 ds2,
      cs = '[' :: (ds1 ++ litList "] Complete transmission in " ++ ds2 ++
        litList " ms" ++ rest) ∧
      ds1 ≠ [] ∧ (∀ c ∈ ds1, c.isDigit) ∧ i = digitsToNat ds1 ∧
      ds2 ≠ [] ∧ (∀ c ∈ ds2, c.isDigit) ∧ d = digitsToNat ds2 := by
  simp only [matchCompleteAt, Option.bind_eq_some, Option.map_eq_some'] at h
  obtain ⟨cs1, hcs1, p1, hp1, cs2, hcs2, p2, hp2, r, hr, hfin⟩ := h
  have h1 := matchLit_sound _ _ _ hcs1
  obtain ⟨ds1, hn1, hd1, he1, hv1⟩ := takeDigits_sound cs1 p1.1 p1.2 (by rw [hp1])
  have h2 := matchLit_sound _ _ _ hcs2
  obtain ⟨ds2, hn2, hd2, he2, hv2⟩ := takeDigits_sound cs2 p2.1 p2.2 (by rw [hp2])
  have h3 := matchLit_sound _ _ _ hr
  rw [Prod.mk.injEq] at hfin
  obtain ⟨hid, hrest⟩ := hfin
  rw [Prod.mk.injEq] at hid
  obtain ⟨hi, hd⟩ := hid
  subst hi; subst hd; subst hrest
  refine ⟨ds1, ds2, ?_, hn1, hd1, hv1, hn2, hd2, hv2⟩
  rw [h1, he1, h2, he2, h3]
  simp [litList]

theorem matchDate_complete (y mo da rest : List Char)
    (hy : y.length = 4) (hmo : mo.length = 2) (hda : da.length = 2)
    (hdy : ∀ c ∈ y, c.isDigit) (hdmo : ∀ c ∈ mo, c.isDigit)
    (hdda : ∀ c ∈ da, c.isDigit) :
    matchDate (y ++ ('-' :: (mo ++ ('-' :: (da ++ rest))))) =
      some (y ++ ('-' :: (mo ++ ('-' :: da))), rest) := by
  have ha : takeDigitsN 4 (y ++ ('-' :: (mo ++ ('-' :: (da ++ rest))))) =
      some (y, '-' :: (mo ++ ('-' :: (da ++ rest)))) := by
    rw [← hy]
    exact takeDigitsN_complete y _ hdy
  have hb : matchLit (litList "-") ('-' :: (mo ++ ('-' :: (da ++ rest)))) =
      some (mo ++ ('-' :: (da ++ rest))) := matchLit_complete (litList "-") _
  have hc : takeDigitsN 2 (mo ++ ('-' :: (da ++ rest))) =
      some (mo, '-' :: (da ++ rest)) := by
    rw [← hmo]
    exact takeDigitsN_complete mo _ hdmo
  have hd : matchLit (litList "-") ('-' :: (da ++ rest)) = some (da ++ rest) :=
    matchLit_complete (litList "-") _
  have he : takeDigitsN 2 (da ++ rest) = some (da, rest) := by
    rw [← hda]
    exact takeDigitsN_complete da _ hdda
  simp only [matchDate, ha, Option.some_bind, hb, hc, hd, he, Option.map_some']
  simp [List.cons_append, List.append_assoc]

theorem matchClock_complete (hh mi ss rest : List Char)
    (hhh : hh.length = 2) (hmi : mi.length = 2) (hss : ss.length = 2)
    (hdh : ∀ c ∈ hh, c.isDigit) (hdmi : ∀ c ∈ mi, c.isDigit)
    (hdss : ∀ c ∈ ss, c.isDigit) :
    matchClock (hh ++ (':' :: (mi ++ (':' :: (ss ++ rest))))) =
      some (hh ++ (':' :: (mi ++ (':' :: ss))), rest) := by
  have ha : takeDigitsN 2 (hh ++ (':' :: (mi ++ (':' :: (ss ++ rest))))) =
      some (hh, ':' :: (mi ++ (':' :: (ss ++ rest)))) := by
    rw [← hhh]
    exact takeDigitsN_complete hh _ hdh
  have hb : matchLit (litList ":") (':' :: (mi ++ (':' :: (ss ++ rest)))) =
      some (mi ++ (':' :: (ss ++ rest))) := matchLit_complete (litList ":") _
  have hc : takeDigitsN 2 (mi ++ (':' :: (ss ++ rest))) =
      some (mi, ':' :: (ss ++ rest)) := by
    rw [← hmi]
    exact takeDigitsN_complete mi _ hdmi
  have hd : matchLit (litList ":") (':' :: (ss ++ rest)) = some (ss ++ rest) :=
    matchLit_complete (litList ":") _
  have he : takeDigitsN 2 (ss ++ rest) = some (ss, rest) := by
    rw [← hss]
    exact takeDigitsN_complete ss _ hdss
  simp only [matchClock, ha, Option.some_bind, hb, hc, hd, he, Option.map_some']
  simp [List.cons_append, List.append_assoc]

theorem matchTimestamp_complete (ts rest : List Char) (h : TimestampShape ts) :
    matchTimestamp (ts ++ rest) = some (ts, rest) := by
  obtain ⟨date, clock, hts, ⟨y, mo, da, hdate, hy, hmo, hda, hdy, hdmo, hdda⟩,
    ⟨hh, mi, ss, hclock, hhh, hmi, hss, hdh, hdmi, hdss⟩⟩ := h
  subst hts
  subst hdate
  subst hclock
  have hmd := matchDate_complete y mo da
    (' ' :: ((hh ++ (':' :: (mi ++ (':' :: ss)))) ++ rest)) hy hmo hda hdy hdmo hdda
  have hml : matchLit (litList " ")
      (' ' :: ((hh ++ (':' :: (mi ++ (':' :: ss)))) ++ rest)) =
      some ((hh ++ (':' :: (mi ++ (':' :: ss)))) ++ rest) :=
    matchLit_complete (litList " ") _
  have hmc := matchClock_complete hh mi ss rest hhh hmi hss hdh hdmi hdss
  have harg : ((y ++ '-' :: mo ++ '-' :: da) ++ ' ' :: (hh ++ ':' :: mi ++ ':' :: ss)) ++ rest =
      y ++ ('-' :: (mo ++ ('-' :: (da ++ (' ' :: ((hh ++ (':' :: (mi ++ (':' :: ss)))) ++ rest)))))) := by
    simp [List.cons_append, List.append_assoc]
  have hclockarg : (hh ++ (':' :: (mi ++ (':' :: ss)))) ++ rest =
      hh ++ (':' :: (mi ++ (':' :: (ss ++ rest)))) := by
    simp [List.cons_append, List.append_assoc]
  rw [matchTimestamp, harg, hmd]
  simp only [Option.some_bind]
  rw [hml]
  simp only [Option.some_bind]
  rw [hclockarg, hmc]
  simp only [Option.map_some']
  simp [List.cons_append, List.append_assoc]

theorem matchIdDur_complete (ds1 ds2 rest : List Char) (h1 : ds1 ≠ [])
    (hd1 : ∀ c ∈ ds1, c.isDigit) (h2 : ds2 ≠ []) (hd2 : ∀ c ∈ ds2, c.isDigit) :
    matchIdDur (ds1 ++ (litList "] Complete transmission in " ++
        (ds2 ++ (litList " ms" ++ rest)))) =
      some ((digitsToNat ds1, digitsToNat ds2), rest) := by
  have ha : takeDigits (ds1 ++ (litList "] Complete transmission in " ++
      (ds2 ++ (litList " ms" ++ rest)))) =
      some (digitsToNat ds1, litList "] Complete transmission in " ++
        (ds2 ++ (litList " ms" ++ rest))) :=
    takeDigits_complete _ _ h1 hd1
      (by intro c hc; simp [litList] at hc; subst hc; decide)
  have hb : matchLit (litList "] Complete transmission in ")
      (litList "] Complete transmission in " ++ (ds2 ++ (litList " ms" ++ rest))) =
      some (ds2 ++ (litList " ms" ++ rest)) := matchLit_complete _ _
  have hc : takeDigits (ds2 ++ (litList " ms" ++ rest)) =
      some (digitsToNat ds2, litList " ms" ++ rest) :=
    takeDigits_complete _ _ h2 hd2
      (by intro c hc; simp [litList] at hc; subst hc; decide)
  have hd : matchLit (litList " ms") (litList " ms" ++ rest) = some rest :=
    matchLit_complete _ _
  simp only [matchIdDur, ha, Option.some_bind, hb, hc, hd, Option.map_some']

theorem matchCompleteAt_complete (ds1 ds2 post : List Char) (h1 : ds1 ≠ [])
    (hd1 : ∀ c ∈ ds1, c.isDigit) (h2 : ds2 ≠ []) (hd2 : ∀ c ∈ ds2, c.isDigit) :
    matchCompleteAt ('[' :: (ds1 ++ (litList "] Complete transmission in " ++
        (ds2 ++ (litList " ms" ++ post))))) =
      some ((digitsToNat ds1, digitsToNat ds2), post) := by
  have h0 : matchLit (litList "[")
      ('[' :: (ds1 ++ (litList "] Complete transmission in " ++
        (ds2 ++ (litList " ms" ++ post))))) =
      some (ds1 ++ (litList "] Complete transmission in " ++
        (ds2 ++ (litList " ms" ++ post)))) := matchLit_complete (litList "[") _
  have ha : takeDigits (ds1 ++ (litList "] Complete transmission in " ++
      (ds2 ++ (litList " ms" ++ post)))) =
      some (digitsToNat ds1, litList "] Complete transmission in " ++
        (ds2 ++ (litList " ms" ++ post))) :=
    takeDigits_complete _ _ h1 hd1
      (by intro c hc; simp [litList] at hc; subst hc; decide)
  have hb : matchLit (litList "] Complete transmission in ")
      (litList "] Complete transmission in " ++ (ds2 ++ (litList " ms" ++ post))) =
      some (ds2 ++ (litList " ms" ++ post)) := matchLit_complete _ _
  have hc : takeDigits (ds2 ++ (litList " ms" ++ post)) =
      some (digitsToNat ds2, litList " ms" ++ post) :=
    takeDigits_complete _ _ h2 hd2
      (by intro c hc; simp [litList] at hc; subst hc; decide)
  have hd : matchLit (litList " ms") (litList " ms" ++ post) = some post :=
    matchLit_complete _ _
  simp only [matchCompleteAt, h0, Option.some_bind, ha, hb, hc, hd, Option.map_some']

theorem parse_log_line_complete (line ts ds1 ds2 rest : List Char)
    (hts : TimestampShape ts) (h1 : ds1 ≠ []) (hd1 : ∀ c ∈ ds1, c.isDigit)
    (h2 : ds2 ≠ []) (hd2 : ∀ c ∈ ds2, c.isDigit)
    (hstrip : pyStrip line = '[' :: (ts ++ litList "] [" ++ ds1 ++
      litList "] Complete transmission in " ++ ds2 ++ litList " ms" ++ rest)) :
    parse_log_line line = some (ts, digitsToNat ds1, digitsToNat ds2) := by
  have hstrip' : pyStrip line = '[' :: (ts ++ (litList "] [" ++
      (ds1 ++ (litList "] Complete transmission in " ++
        (ds2 ++ (litList " ms" ++ rest)))))) := by
    rw [hstrip]
    simp [List.append_assoc]
  have hm0 : matchLit (litList "[")
      ('[' :: (ts ++ (litList "] [" ++
        (ds1 ++ (litList "] Complete transmission in " ++
          (ds2 ++ (litList " ms" ++ rest))))))) =
      some (ts ++ (litList "] [" ++
        (ds1 ++ (litList "] Complete transmission in " ++
          (ds2 ++ (litList " ms" ++ rest)))))) :=
    matchLit_complete (litList "[") _
  have hm1 : matchTimestamp (ts ++ (litList "] [" ++
      (ds1 ++ (litList "] Complete transmission in " ++
        (ds2 ++ (litList " ms" ++ rest)))))) =
      some (ts, litList "] [" ++
        (ds1 ++ (litList "] Complete transmission in " ++
          (ds2 ++ (litList " ms" ++ rest))))) :=
    matchTimestamp_complete ts _ hts
  have hm2 : matchLit (litList "] [")
      (litList "] [" ++
        (ds1 ++ (litList "] Complete transmission in " ++
          (ds2 ++ (litList " ms" ++ rest))))) =
      some (ds1 ++ (litList "] Complete transmission in " ++
        (ds2 ++ (litList " ms" ++ rest)))) := matchLit_complete (litList "] [") _
  have hm3 := matchIdDur_complete ds1 ds2 rest h1 hd1 h2 hd2
  simp only [parse_log_line, hstrip', hm0, Option.some_bind, hm1, hm2, hm3,
    Option.map_some']

theorem classifyIndex_eq_fileSize (i : Nat) :
    classifyIndex i = some TestGroup.fileSize ↔ i ≤ 5 := by
  unfold classifyIndex
  split_ifs with h1 h2 h3 <;> simp <;> omega

theorem classifyIndex_eq_bandwidth (i : Nat) :
    classifyIndex i = some TestGroup.bandwidth ↔ 6 ≤ i ∧ i ≤ 9 := by
  unfold classifyIndex
  split_ifs with h1 h2 h3 <;> simp <;> omega

theorem classifyIndex_eq_delay (i : Nat) :
    classifyIndex i = some TestGroup.delay ↔ 10 ≤ i ∧ i ≤ 15 := by
  unfold classifyIndex
  split_ifs with h1 h2 h3 <;> simp <;> omega

theorem classifyIndex_eq_none (i : Nat) :
    classifyIndex i = none ↔ 16 ≤ i := by
  unfold classifyIndex
  split_ifs with h1 h2 h3 <;> simp <;> omega

theorem foldl_classifyStep (ms : List (Nat × Nat)) :
    ∀ init : TestData, ms.foldl classifyStep init =
      ⟨init.test1 ++ groupDurations TestGroup.fileSize ms,
       init.test2 ++ groupDurations TestGroup.bandwidth ms,
       init.test3 ++ groupDurations TestGroup.delay ms,
       init.unknown ++ unknownIndices ms⟩ := by
  induction ms with
  | nil => intro init; simp [groupDurations, unknownIndices]
  | cons m ms ih =>
    intro init
    rw [List.foldl_cons, ih (classifyStep init m)]
    unfold classifyStep groupDurations unknownIndices
    split_ifs with h1 h2 h3
    · have hc : classifyIndex m.1 = some TestGroup.fileSize :=
        (classifyIndex_eq_fileSize m.1).mpr h1.2
      simp [List.filterMap_cons, hc]
    · have hc : classifyIndex m.1 = some TestGroup.bandwidth :=
        (classifyIndex_eq_bandwidth m.1).mpr h2
      simp [List.filterMap_cons, hc]
    · have hc : classifyIndex m.1 = some TestGroup.delay :=
        (classifyIndex_eq_delay m.1).mpr h3
      simp [List.filterMap_cons, hc]
    · have hc : classifyIndex m.1 = none := by
        rw [classifyIndex_eq_none]
        omega
      simp [List.filterMap_cons, hc]

theorem classifyMatches_eq (ms : List (Nat × Nat)) :
    classifyMatches ms =
      ⟨groupDurations TestGroup.fileSize ms,
       groupDurations TestGroup.bandwidth ms,
       groupDurations TestGroup.delay ms,
       unknownIndices ms⟩ := by
  rw [classifyMatches, foldl_classifyStep]
  rfl

theorem classify_conservation (ms : List (Nat × Nat)) :
    (groupDurations TestGroup.fileSize ms).length +
      (groupDurations TestGroup.bandwidth ms).length +
      (groupDurations TestGroup.delay ms).length +
      (unknownIndices ms).length = ms.length := by
  induction ms with
  | nil => rfl
  | cons m ms ih =>
    unfold groupDurations unknownIndices at ih ⊢
    rcases h : classifyIndex m.1 with _ | g
    · simp [List.filterMap_cons, h]
      omega
    · cases g <;> simp [List.filterMap_cons, h] <;> omega

theorem foldl_aggregate (files : List (Option (List Char))) :
    ∀ init : TestData,
      files.foldl
        (fun acc file =>
          match file with
          | some content =>
            let d := parseExperimentalContent content
            ⟨acc.test1 ++ d.test1, acc.test2 ++ d.test2,
             acc.test3 ++ d.test3, acc.unknown ++ d.unknown⟩
          | none => acc)
        init =
      ⟨init.test1 ++ ((presentContents files).map
          (fun c => (parseExperimentalContent c).test1)).flatten,
       init.test2 ++ ((presentContents files).map
          (fun c => (parseExperimentalContent c).test2)).flatten,
       init.test3 ++ ((presentContents files).map
          (fun c => (parseExperimentalContent c).test3)).flatten,
       init.unknown ++ ((presentContents files).map
          (fun c => (parseExperimentalContent c).unknown)).flatten⟩ := by
  induction files with
  | nil => intro init; simp [presentContents]
  | cons f files ih =>
    intro init
    cases f with
    | none =>
      rw [List.foldl_cons]
      simp only [ih]
      simp [presentContents]
    | some content =>
      rw [List.foldl_cons]
      simp only [ih]
      simp [presentContents, List.append_assoc]

theorem aggregateExperimental_eq (files : List (Option (List Char))) :
    aggregateExperimental files =
      ⟨((presentContents files).map
          (fun c => (parseExperimentalContent c).test1)).flatten,
       ((presentContents files).map
          (fun c => (parseExperimentalContent c).test2)).flatten,
       ((presentContents files).map
          (fun c => (parseExperimentalContent c).test3)).flatten,
       ((presentContents files).map
          (fun c => (parseExperimentalContent c).unknown)).flatten⟩ := by
  rw [aggregateExperimental, foldl_aggregate]
  rfl

theorem chunkRows_join (blocks : List (List Rat))
    (h : ∀ b ∈ blocks, b.length = runs_per_param) :
    chunkRows blocks.length runs_per_param blocks.flatten = blocks := by
  induction blocks with
  | nil => rfl
  | cons b bs ih =>
    have hb : b.length = runs_per_param := h b (List.mem_cons_self b bs)
    simp only [List.length_cons, List.flatten_cons, chunkRows]
    have h1 : List.take runs_per_param (b ++ bs.flatten) = b := by
      rw [← hb]; exact List.take_left b bs.flatten
    have h2 : List.drop runs_per_param (b ++ bs.flatten) = bs.flatten := by
      rw [← hb]; exact List.drop_left b bs.flatten
    rw [h1, h2, ih fun x hx => h x (List.mem_cons_of_mem b hx)]

theorem join_length_blocks (blocks : List (List Rat))
    (h : ∀ b ∈ blocks, b.length = runs_per_param) :
    blocks.flatten.length = blocks.length * runs_per_param := by
  induction blocks with
  | nil => rfl
  | cons b bs ih =>
    have hb : b.length = runs_per_param := h b (List.mem_cons_self b bs)
    have := ih fun x hx => h x (List.mem_cons_of_mem b hx)
    simp only [List.flatten_cons, List.length_append, List.length_cons, this, hb]
    ring

theorem argmin_foldl_spec (key : Nat → Rat) (l : List Nat) :
    ∀ b : Nat,
      (key (l.foldl (fun best i => if key i < key best then i else best) b) ≤ key b ∧
        ∀ i ∈ l, key (l.foldl (fun best i => if key i < key best then i else best) b) ≤ key i) ∧
      (l.foldl (fun best i => if key i < key best then i else best) b = b ∨
        l.foldl (fun best i => if key i < key best then i else best) b ∈ l) := by
  induction l with
  | nil => intro b; simp
  | cons x l ih =>
    intro b
    rw [List.foldl_cons]
    by_cases hx : key x < key b
    · rw [if_pos hx]
      obtain ⟨⟨hle, hall⟩, hmem⟩ := ih x
      refine ⟨⟨le_of_lt (lt_of_le_of_lt hle hx), ?_⟩, ?_⟩
      · intro i hi
        rcases List.mem_cons.mp hi with h | h
        · subst h; exact hle
        · exact hall i h
      · rcases hmem with h | h
        · exact Or.inr (by rw [h]; exact List.mem_cons_self x l)
        · exact Or.inr (List.mem_cons_of_mem x h)
    · rw [if_neg hx]
      push_neg at hx
      obtain ⟨⟨hle, hall⟩, hmem⟩ := ih b
      refine ⟨⟨hle, ?_⟩, ?_⟩
      · intro i hi
        rcases List.mem_cons.mp hi with h | h
        · subst h; exact le_trans hle hx
        · exact hall i h
      · rcases hmem with h | h
        · exact Or.inl h
        · exact Or.inr (List.mem_cons_of_mem x h)

theorem argminAbs_lt_length (tps : List Rat) (pv : Rat) (h : tps ≠ []) :
    argminAbs tps pv < tps.length := by
  unfold argminAbs
  obtain ⟨⟨_, _⟩, hmem⟩ :=
    argmin_foldl_spec (fun i => ratAbs (tps.getD i 0 - pv)) (List.range tps.length) 0
  rcases hmem with heq | hin
  · rw [heq]
    cases tps with
    | nil => exact absurd rfl h
    | cons t ts => simp
  · exact List.mem_range.mp hin

theorem argminAbs_min (tps : List Rat) (pv : Rat) :
    ∀ j < tps.length,
      ratAbs (tps.getD (argminAbs tps pv) 0 - pv) ≤ ratAbs (tps.getD j 0 - pv) := by
  intro j hj
  unfold argminAbs
  obtain ⟨⟨_, hall⟩, _⟩ :=
    argmin_foldl_spec (fun i => ratAbs (tps.getD i 0 - pv)) (List.range tps.length) 0
  exact hall j (List.mem_range.mpr hj)

theorem allocRun_length (n s : Nat) : (allocRun n s).length = n := by
  induction n generalizing s with
  | zero => rfl
  | succ n ih => simp [allocRun, get_next_test_id, ih]

theorem allocRun_eq_map_range (n s : Nat) :
    allocRun n s = (List.range n).map (· + s) := by
  induction n generalizing s with
  | zero => rfl
  | succ n ih =>
    rw [List.range_succ_eq_map]
    simp only [allocRun, get_next_test_id, List.map_cons, List.map_map]
    refine congrArg₂ _ (by omega) ?_
    rw [ih (s + 1)]
    refine List.map_congr_left fun a _ => ?_
    simp only [Function.comp_apply]
    omega

theorem allocatedIds_eq_range (n : Nat) : allocatedIds n = List.range n := by
  rw [allocatedIds, initialTestIdCounter, allocRun_eq_map_range]
  simp

theorem round3_intCast (n : Int) : round3 ((n : Rat)) = (n : Rat) := by
  unfold round3 roundHalfEven
  have h : ((n : Rat) * 1000) = ((1000 * n : Int) : Rat) := by push_cast; ring
  rw [h, Int.floor_intCast]
  simp only [sub_self]
  rw [if_pos (by norm_num)]
  push_cast
  ring

theorem getD_map_fst (theory : List (Rat × Rat)) :
    ∀ j, j < theory.length →
      (theory.map Prod.fst).getD j 0 = (theory.getD j (0, 0)).1 := by
  induction theory with
  | nil => intro j hj; simp at hj
  | cons p ps ih =>
    intro j hj
    cases j with
    | zero => rfl
    | succ j =>
      simp only [List.map_cons, List.getD_cons_succ]
      exact ih j (by simpa using hj)

theorem allocRun_mem_ge (n : Nat) :
    ∀ s, ∀ x ∈ allocRun n s, s ≤ x := by
  induction n with
  | zero => intro s x hx; simp [allocRun] at hx
  | succ n ih =>
    intro s x hx
    simp only [allocRun, get_next_test_id, List.mem_cons] at hx
    rcases hx with h | h
    · omega
    · have := ih (s + 1) x h
      omega

theorem allocRun_pairwise (n : Nat) :
    ∀ s, List.Pairwise (· < ·) (allocRun n s) := by
  induction n with
  | zero => intro s; simp [allocRun]
  | succ n ih =>
    intro s
    simp only [allocRun, get_next_test_id]
    exact List.Pairwise.cons
      (fun x hx => lt_of_lt_of_le (Nat.lt_succ_self s) (allocRun_mem_ge n (s + 1) x hx))
      (ih (s + 1))

theorem serverLoop_length (events : List (List Char × List Char)) :
    ∀ i, (serverLoop events i).length = events.length := by
  induction events with
  | nil => intro i; rfl
  | cons e rest ih => intro i; simp [serverLoop, ih]

theorem serverLoop_getD (events : List (List Char × List Char)) :
    ∀ i k, k < events.length →
      ((serverLoop events i).getD k ⟨[], 0, []⟩).index = i + k := by
  induction events with
  | nil => intro i k hk; simp at hk
  | cons e rest ih =>
    intro i k hk
    cases k with
    | zero => rfl
    | succ k =>
      simp only [serverLoop, List.getD_cons_succ]
      rw [ih (i + 1) k (by simpa using hk)]
      omega

theorem serverLoop_indices (events : List (List Char × List Char)) (i : Nat) :
    (serverLoop events i).map ServerLogLine.index =
      (List.range events.length).map (· + i) := by
  induction events generalizing i with
  | nil => rfl
  | cons e rest ih =>
    rw [List.length_cons, List.range_succ_eq_map]
    simp only [serverLoop, List.map_cons, List.map_map]
    refine congrArg₂ _ (by omega) ?_
    rw [ih (i + 1)]
    refine List.map_congr_left fun a _ => ?_
    simp only [Function.comp_apply]
    omega

theorem bracket_not_mem (e1 e2 : List Char)
    (hd1 : ∀ c ∈ e1, c.isDigit) (hd2 : ∀ c ∈ e2, c.isDigit) :
    '[' ∉ e1 ++ litList "] Complete transmission in " ++ e2 ++ litList " ms" := by
  intro h
  simp only [List.mem_append] at h
  rcases h with ((h | h) | h) | h
  · exact absurd (hd1 _ h) (by decide)
  · revert h
    decide
  · exact absurd (hd2 _ h) (by decide)
  · revert h
    decide

theorem findMatchesAux_cons_some (fuel : Nat) (c : Char) (cs : List Char)
    (m : Nat × Nat) (rest : List Char)
    (h : matchCompleteAt (c :: cs) = some (m, rest)) :
    findMatchesAux (fuel + 1) (c :: cs) = m :: findMatchesAux fuel rest := by
  simp [findMatchesAux, h]

theorem findMatchesAux_cons_none (fuel : Nat) (c : Char) (cs : List Char)
    (h : matchCompleteAt (c :: cs) = none) :
    findMatchesAux (fuel + 1) (c :: cs) = findMatchesAux fuel cs := by
  simp [findMatchesAux, h]

theorem findMatchesAux_complete (ds1 ds2 : List Char) (h1 : ds1 ≠ [])
    (hd1 : ∀ c ∈ ds1, c.isDigit) (h2 : ds2 ≠ []) (hd2 : ∀ c ∈ ds2, c.isDigit) :
    ∀ (fuel : Nat) (cs pre post : List Char), cs.length ≤ fuel →
      cs = pre ++ ('[' :: (ds1 ++ litList "] Complete transmission in " ++
        ds2 ++ litList " ms")) ++ post →
      (digitsToNat ds1, digitsToNat ds2) ∈ findMatchesAux fuel cs := by
  intro fuel
  induction fuel with
  | zero =>
    intro cs pre post hle hcs
    subst hcs
    simp [List.length_append] at hle
  | succ fuel ih =>
    intro cs pre post hle hcs
    cases pre with
    | nil =>
      subst hcs
      have hm := matchCompleteAt_complete ds1 ds2 post h1 hd1 h2 hd2
      have harg : ([] ++ ('[' :: (ds1 ++ litList "] Complete transmission in " ++
          ds2 ++ litList " ms")) ++ post : List Char) =
          '[' :: (ds1 ++ (litList "] Complete transmission in " ++
            (ds2 ++ (litList " ms" ++ post)))) := by
        simp [List.append_assoc]
      rw [harg, findMatchesAux_cons_some fuel _ _ _ _ hm]
      exact List.mem_cons_self _ _
    | cons p pre' =>
      subst hcs
      have hcons : ((p :: pre') ++ ('[' :: (ds1 ++
          litList "] Complete transmission in " ++ ds2 ++ litList " ms")) ++ post :
            List Char) =
          p :: (pre' ++ ('[' :: (ds1 ++ litList "] Complete transmission in " ++
            ds2 ++ litList " ms")) ++ post) := by
        simp
      rw [hcons]
      rw [hcons, List.length_cons] at hle
      have hle' : (pre' ++ ('[' :: (ds1 ++ litList "] Complete transmission in " ++
          ds2 ++ litList " ms")) ++ post).length ≤ fuel := Nat.le_of_succ_le_succ hle
      cases hmatch : matchCompleteAt (p :: (pre' ++ ('[' :: (ds1 ++
          litList "] Complete transmission in " ++ ds2 ++ litList " ms")) ++ post)) with
      | none =>
        rw [findMatchesAux_cons_none fuel _ _ hmatch]
        exact ih _ pre' post hle' rfl
      | some pr =>
        rw [findMatchesAux_cons_some fuel _ _ pr.1 pr.2 (by rw [hmatch])]
        obtain ⟨e1, e2, hcseq, he1, hde1, hv1, he2, hde2, hv2⟩ :=
          matchCompleteAt_sound _ pr.2 pr.1.1 pr.1.2 (by rw [hmatch])
        injection hcseq with hp htail
        have htail' : pre' ++ (('[' :: (ds1 ++
            litList "] Complete transmission in " ++ ds2 ++ litList " ms")) ++ post) =
            (e1 ++ litList "] Complete transmission in " ++ e2 ++ litList " ms") ++
              pr.2 := by
          rw [List.append_assoc] at htail
          rw [htail]
          try simp [List.append_assoc]
        rcases List.append_eq_append_iff.mp htail' with ⟨a, hinner, hocc⟩ | ⟨c, hpre, hrest⟩
        · cases a with
          | nil =>
            have hocc' : ('[' :: (ds1 ++ litList "] Complete transmission in " ++
                ds2 ++ litList " ms")) ++ post = pr.2 := by
              simpa using hocc
            apply List.mem_cons_of_mem
            refine ih pr.2 [] post ?_ (by simp [← hocc'])
            have hlen := congrArg List.length hocc'
            simp only [List.length_append, List.length_cons] at hlen hle' ⊢
            omega
          | cons x a' =>
            exfalso
            have hx : x = '[' := by
              have h0 := hocc
              simp only [List.cons_append] at h0
              injection h0 with hx0 _
              exact hx0.symm
            apply bracket_not_mem e1 e2 hde1 hde2
            rw [hinner, hx]
            exact List.mem_append_right _ (List.mem_cons_self _ _)
        · apply List.mem_cons_of_mem
          refine ih pr.2 c post ?_ ?_
          · have hlenpre := congrArg List.length hpre
            have hlenrest := congrArg List.length hrest
            simp only [List.length_append, List.length_cons] at hlenpre hlenrest hle' ⊢
            omega
          · rw [hrest]
            simp [List.append_assoc]

theorem findMatches_complete (ds1 ds2 : List Char) (h1 : ds1 ≠ [])
    (hd1 : ∀ c ∈ ds1, c.isDigit) (h2 : ds2 ≠ []) (hd2 : ∀ c ∈ ds2, c.isDigit)
    (pre post : List Char) :
    (digitsToNat ds1, digitsToNat ds2) ∈
      findMatches (pre ++ ('[' :: (ds1 ++ litList "] Complete transmission in " ++
        ds2 ++ litList " ms")) ++ post) :=
  findMatchesAux_complete ds1 ds2 h1 hd1 h2 hd2 _ _ pre post (Nat.le_refl _) rfl

/-! ### Claim theorems -/

/-- C1: the theoretical model is the pure function
`time_ms(file_size, bandwidth, delay) = (file_size / bandwidth + 2 * delay) * 1000`
(the source computes `theoretical_time(...) * 1000`), and for
file_size = 1048576 B, bandwidth = 1310720 B/s, delay = 0.01 s it returns
exactly 820 ms, in particular within 0.01 ms of 820.0. -/
theorem C1_time_ms_model :
    (∀ file_size bandwidth delay : Rat,
        theoretical_time file_size bandwidth delay * 1000 =
          time_ms_spec file_size bandwidth delay)
    ∧ theoretical_time 1048576 1310720 (1 / 100) * 1000 = 820
    ∧ ratAbs (theoretical_time 1048576 1310720 (1 / 100) * 1000 - 820) ≤ 1 / 100 := by
  refine ⟨fun f b d => by simp [theoretical_time, time_ms_spec], ?_, ?_⟩
  · norm_num [theoretical_time]
  · norm_num [theoretical_time, ratAbs]

/-- C2: the classifier assigns groups by the position of the test id in the
closed range partition FileSize = [0,5], Bandwidth = [6,9], Delay = [10,15];
the line `[2024-01-01 00:00:00] [7] Complete transmission in 901 ms` yields
the record (7, 901) classified as Bandwidth; and a recognized record whose
id lies outside every range is appended to no group and produces an
unknown-index diagnostic. -/
theorem C2_classification :
    findMatches (litList "[2024-01-01 00:00:00] [7] Complete transmission in 901 ms") =
      [(7, 901)]
    ∧ classifyIndex 7 = some TestGroup.bandwidth
    ∧ parseExperimentalContent
        (litList "[2024-01-01 00:00:00] [7] Complete transmission in 901 ms") =
        ⟨[], [901], [], []⟩
    ∧ (∀ i, i ≤ 5 → classifyIndex i = some TestGroup.fileSize)
    ∧ (∀ i, 6 ≤ i → i ≤ 9 → classifyIndex i = some TestGroup.bandwidth)
    ∧ (∀ i, 10 ≤ i → i ≤ 15 → classifyIndex i = some TestGroup.delay)
    ∧ (∀ i t, 16 ≤ i → ∀ ms, classifyMatches (ms ++ [(i, t)]) =
        { classifyMatches ms with
            unknown := (classifyMatches ms).unknown ++ [i] }) := by
  refine ⟨by decide, by decide, by decide, ?_, ?_, ?_, ?_⟩
  · intro i hi; exact (classifyIndex_eq_fileSize i).mpr hi
  · intro i h1 h2; exact (classifyIndex_eq_bandwidth i).mpr ⟨h1, h2⟩
  · intro i h1 h2; exact (classifyIndex_eq_delay i).mpr ⟨h1, h2⟩
  · intro i t hi ms
    rw [classifyMatches, classifyMatches, List.foldl_append, List.foldl_cons,
      List.foldl_nil]
    unfold classifyStep
    split_ifs with h1 h2 h3
    · omega
    · omega
    · omega
    · rfl

/-- Witness for C2 at the out-of-range id 16. -/
theorem C2_classification_witness :
    classifyMatches ([] ++ [(16, 123)]) =
      { classifyMatches [] with
          unknown := (classifyMatches []).unknown ++ [16] } :=
  C2_classification.2.2.2.2.2.2 16 123 (by decide) []

/-- C3 (amended): the strict converter `parse_log_line` (2csv.py)
recognizes a line iff its stripped form begins with
`[<timestamp>] [<test_id>] Complete transmission in <duration> ms`
(the leading bracketed timestamp is required there, and trailing text
after ` ms` is permitted since `re.match` only anchors the start); the
classifier's ingestion (`data_praser.py`) instead recognizes a record
wherever the substring `[<test_id>] Complete transmission in <duration> ms`
occurs, even without any leading timestamp. In both, an unrecognized line
contributes no record and raises no error. -/
theorem C3_recognition_amended :
    parse_log_line
        (litList "[2024-01-01 00:00:00] [7] Complete transmission in 901 ms") =
      some (litList "2024-01-01 00:00:00", 7, 901)
    ∧ parse_log_line (litList "[7] Complete transmission in 901 ms") = none
    ∧ parse_log_line (litList "Done: Transmitted file") = none
    ∧ findMatches (litList "[7] Complete transmission in 901 ms") = [(7, 901)]
    ∧ (∀ line ts i d, parse_log_line line = some (ts, i, d) →
        TimestampShape ts ∧
          ∃ ds1 ds2 rest,
            pyStrip line = '[' :: (ts ++ litList "] [" ++ ds1 ++
              litList "] Complete transmission in " ++ ds2 ++
              litList " ms" ++ rest) ∧
            ds1 ≠ [] ∧ (∀ c ∈ ds1, c.isDigit) ∧ i = digitsToNat ds1 ∧
            ds2 ≠ [] ∧ (∀ c ∈ ds2, c.isDigit) ∧ d = digitsToNat ds2)
    ∧ (∀ pre post ln, parse_log_line ln = none →
        convert_log_rows (pre ++ ln :: post) = convert_log_rows (pre ++ post))
    ∧ (∀ line ts ds1 ds2 rest, TimestampShape ts →
        ds1 ≠ [] → (∀ c ∈ ds1, c.isDigit) → ds2 ≠ [] → (∀ c ∈ ds2, c.isDigit) →
        pyStrip line = '[' :: (ts ++ litList "] [" ++ ds1 ++
          litList "] Complete transmission in " ++ ds2 ++ litList " ms" ++ rest) →
        parse_log_line line = some (ts, digitsToNat ds1, digitsToNat ds2))
    ∧ (∀ ds1 ds2, ds1 ≠ [] → (∀ c ∈ ds1, c.isDigit) →
        ds2 ≠ [] → (∀ c ∈ ds2, c.isDigit) → ∀ pre post,
        (digitsToNat ds1, digitsToNat ds2) ∈
          findMatches (pre ++ ('[' :: (ds1 ++
            litList "] Complete transmission in " ++ ds2 ++ litList " ms")) ++
            post)) := by
  refine ⟨by decide, by decide, by decide, by decide, ?_, ?_, ?_, ?_⟩
  · intro line ts i d h
    exact parse_log_line_sound line ts i d h
  · intro pre post ln h
    simp [convert_log_rows, List.filterMap_append, List.filterMap_cons, h]
  · intro line ts ds1 ds2 rest hts h1 hd1 h2 hd2 hstrip
    exact parse_log_line_complete line ts ds1 ds2 rest hts h1 hd1 h2 hd2 hstrip
  · intro ds1 ds2 h1 hd1 h2 hd2 pre post
    exact findMatches_complete ds1 ds2 h1 hd1 h2 hd2 pre post

/-- Counterexample to C3 as stated: a line carrying
`[7] Complete transmission in 901 ms` without a leading bracketed
timestamp does contribute a record in the classifier's ingestion (it is
classified into Test 2); and the strict converter also accepts a line with
trailing text after ` ms`, which is not of the exact full shape. -/
theorem C3_recognition_counterexample :
    parseExperimentalContent (litList "[7] Complete transmission in 901 ms") =
      ⟨[], [901], [], []⟩
    ∧ parse_log_line
        (litList "[2024-01-01 00:00:00] [7] Complete transmission in 901 ms extra") =
      some (litList "2024-01-01 00:00:00", 7, 901) := by
  exact ⟨by decide, by decide⟩

/-- Witness for C3's soundness, completeness and occurrence clauses at
concrete lines. -/
theorem C3_recognition_witness :
    (TimestampShape (litList "2024-01-01 00:00:00") ∧
      ∃ ds1 ds2 rest,
        pyStrip (litList "[2024-01-01 00:00:00] [7] Complete transmission in 901 ms") =
          '[' :: (litList "2024-01-01 00:00:00" ++ litList "] [" ++ ds1 ++
            litList "] Complete transmission in " ++ ds2 ++
            litList " ms" ++ rest) ∧
        ds1 ≠ [] ∧ (∀ c ∈ ds1, c.isDigit) ∧ 7 = digitsToNat ds1 ∧
        ds2 ≠ [] ∧ (∀ c ∈ ds2, c.isDigit) ∧ 901 = digitsToNat ds2)
    ∧ parse_log_line
        (litList "  [2024-01-01 00:00:00] [7] Complete transmission in 901 ms") =
      some (litList "2024-01-01 00:00:00", digitsToNat (litList "7"),
        digitsToNat (litList "901"))
    ∧ (digitsToNat (litList "7"), digitsToNat (litList "901")) ∈
        findMatches (litList "noise " ++ ('[' :: (litList "7" ++
          litList "] Complete transmission in " ++ litList "901" ++
          litList " ms")) ++ litList " tail") := by
  have hts : TimestampShape (litList "2024-01-01 00:00:00") :=
    ⟨litList "2024-01-01", litList "00:00:00", by decide,
     ⟨litList "2024", litList "01", litList "01", by decide, by decide,
       by decide, by decide, by decide, by decide, by decide⟩,
     ⟨litList "00", litList "00", litList "00", by decide, by decide,
       by decide, by decide, by decide, by decide, by decide⟩⟩
  refine ⟨C3_recognition_amended.2.2.2.2.1
    (litList "[2024-01-01 00:00:00] [7] Complete transmission in 901 ms")
    (litList "2024-01-01 00:00:00") 7 901 (by decide), ?_, ?_⟩
  · exact C3_recognition_amended.2.2.2.2.2.2.1
      (litList "  [2024-01-01 00:00:00] [7] Complete transmission in 901 ms")
      (litList "2024-01-01 00:00:00") (litList "7") (litList "901") []
      hts (by decide) (by decide) (by decide) (by decide) (by decide)
  · exact C3_recognition_amended.2.2.2.2.2.2.2
      (litList "7") (litList "901") (by decide) (by decide) (by decide) (by decide)
      (litList "noise ") (litList " tail")

/-- C4 (amended): the parser retains every raw duration (the aggregate per
test is the concatenation of the parsed durations of the present files,
and `organize_test_data` keeps the full list), while the per-point mean is
computed by the plotter with the run count fixed at 5: when the flat
duration list consists of consecutive blocks of exactly 5 durations per
point, the reported value for each point is the arithmetic mean of
exactly its 5 durations; with fewer durations (such as the 3 of the
original claim) the `reshape` fails instead of producing a mean. -/
theorem C4_aggregation_mean_amended :
    (∀ blocks : List (List Rat),
        (∀ b ∈ blocks, b.length = runs_per_param) →
        process_experimental_data blocks.flatten blocks.length =
          some (blocks.map listMean))
    ∧ (∀ xs th, (organize_test_data xs th).experimental = xs)
    ∧ (∀ files : List (Option (List Char)),
        (aggregateExperimental files).test2 =
          ((presentContents files).map
            fun c => (parseExperimentalContent c).test2).flatten) := by
  refine ⟨?_, fun xs th => rfl, ?_⟩
  · intro blocks h
    have hlen := join_length_blocks blocks h
    have htake : blocks.flatten.take (blocks.length * runs_per_param) =
        blocks.flatten := by
      rw [← hlen]
      exact List.take_length blocks.flatten
    simp only [process_experimental_data, htake]
    rw [if_pos hlen, chunkRows_join blocks h]
  · intro files
    rw [aggregateExperimental_eq]

/-- Counterexample to C4 as stated: aggregating the K = 3 durations
[901, 890, 905] for one point does not yield their mean 898.67 — the
plotter's hard-coded `reshape(num_params, 5)` raises instead (`none`). -/
theorem C4_aggregation_mean_counterexample :
    process_experimental_data [901, 890, 905] 1 = none := by
  decide

/-- Witness for C4 on one point with 5 consecutive durations. -/
theorem C4_aggregation_mean_witness :
    process_experimental_data
        ([[(901 : Rat), 890, 905, 901, 890]].flatten) 1 =
      some ([[(901 : Rat), 890, 905, 901, 890]].map listMean) :=
  C4_aggregation_mean_amended.1 [[(901 : Rat), 890, 905, 901, 890]] (by decide)

/-- C5 (amended): `get_theory_value` returns one theoretical value per
requested parameter with no failure mode — the first row matching after
rounding to 3 decimals, or else the row nearest by absolute difference —
whereas `get_test_subset` appends the nearest theoretical sample only when
it lies strictly within the 0.01 tolerance and silently omits the point
otherwise. -/
theorem C5_correlator_amended :
    (∀ theory : List (Rat × Rat), ∀ vals : List Rat,
        (get_theory_value theory vals).length = vals.length)
    ∧ (∀ theory : List (Rat × Rat), ∀ v p,
        theory.find? (fun p => decide (round3 p.1 = round3 v)) = some p →
        getTheoryOne theory v = p.2)
    ∧ (∀ theory : List (Rat × Rat), ∀ v, theory ≠ [] →
        theory.find? (fun p => decide (round3 p.1 = round3 v)) = none →
        ∃ k, k < theory.length ∧
          getTheoryOne theory v = (theory.getD k (0, 0)).2 ∧
          ∀ j, j < theory.length →
            ratAbs ((theory.getD k (0, 0)).1 - v) ≤
              ratAbs ((theory.getD j (0, 0)).1 - v))
    ∧ (∀ tparams ttimes : List Rat, ∀ v : Rat, tparams ≠ [] →
        ¬ ratAbs (tparams.getD (argminAbs tparams v) 0 - v) < 1 / 100 →
        get_test_subset_pairs tparams ttimes [v] = ([], [])) := by
  refine ⟨?_, ?_, ?_, ?_⟩
  · intro theory vals
    simp [get_theory_value]
  · intro theory v p h
    rw [getTheoryOne, h]
  · intro theory v hne hfind
    rw [getTheoryOne, hfind]
    have hmapne : theory.map Prod.fst ≠ [] := by
      simpa using hne
    have hk := argminAbs_lt_length (theory.map Prod.fst) v hmapne
    rw [List.length_map] at hk
    refine ⟨argminAbs (theory.map Prod.fst) v, hk, rfl, ?_⟩
    intro j hj
    have hmin := argminAbs_min (theory.map Prod.fst) v j
      (by rw [List.length_map]; exact hj)
    rw [getD_map_fst theory _ hk, getD_map_fst theory j hj] at hmin
    exact hmin
  · intro tparams ttimes v hne hcond
    rw [get_test_subset_pairs, List.foldl_cons, List.foldl_nil]
    have hempty : tparams.isEmpty = false := by
      cases tparams with
      | nil => exact absurd rfl hne
      | cons t ts => rfl
    simp only [hempty, Bool.false_eq_true, if_false]
    rw [if_neg hcond]

/-- Counterexample to C5 as stated: `get_test_subset` on the non-empty
theoretical series [(9, 820)] and experimental parameter 10 returns no
theoretical value at all — the point is omitted because the nearest sample
is farther than the 0.01 tolerance, contradicting `always returns the
nearest sample rather than omitting the point`. -/
theorem C5_correlator_counterexample :
    get_test_subset_pairs [9] [820] [10] = ([], []) := by
  have hk : argminAbs [9] (10 : Rat) = 0 := by
    have hr : List.range 1 = [0] := rfl
    simp only [argminAbs, List.length_cons, List.length_nil, hr,
      List.foldl_cons, List.foldl_nil, ite_self]
  rw [get_test_subset_pairs, List.foldl_cons, List.foldl_nil]
  simp only [List.isEmpty_cons, Bool.false_eq_true, if_false, hk]
  rw [if_neg]
  norm_num [ratAbs]

/-- Witness for C5's nearest-neighbor clause on the series [(9, 820)] at
the unmatched parameter 10. -/
theorem C5_correlator_witness :
    ∃ k, k < ([((9 : Rat), (820 : Rat))]).length ∧
      getTheoryOne [((9 : Rat), (820 : Rat))] 10 =
        (([((9 : Rat), (820 : Rat))]).getD k (0, 0)).2 ∧
      ∀ j, j < ([((9 : Rat), (820 : Rat))]).length →
        ratAbs ((([((9 : Rat), (820 : Rat))]).getD k (0, 0)).1 - 10) ≤
          ratAbs ((([((9 : Rat), (820 : Rat))]).getD j (0, 0)).1 - 10) := by
  have h9 : round3 (9 : Rat) = (9 : Rat) := by
    have h := round3_intCast 9
    norm_num at h
    exact h
  have h10 : round3 (10 : Rat) = (10 : Rat) := by
    have h := round3_intCast 10
    norm_num at h
    exact h
  have hdec : decide (round3 (9 : Rat) = round3 (10 : Rat)) = false := by
    rw [decide_eq_false_iff_not, h9, h10]
    norm_num
  have hfind : ([((9 : Rat), (820 : Rat))]).find?
      (fun p => decide (round3 p.1 = round3 (10 : Rat))) = none := by
    simp [List.find?, hdec]
  exact C5_correlator_amended.2.2.1 [((9 : Rat), (820 : Rat))] 10 (by decide) hfind

/-- C8 (amended): a configured run-log source file that does not exist
contributes exactly zero records and is never fatal: the aggregate over
any file list containing a missing file equals the aggregate without it,
a missing file parses to the empty record set, and the aggregated
per-test durations are exactly the concatenation of the records of the
files that are present — so with 2 of 3 expected files each point's data
comes from exactly the two available files. The downstream per-point
mean, however, is produced by the plotter only when the flat list
supplies `num_params * 5` durations (the hard-coded run count): with
fewer — e.g. 2 runs per point from 2 of 3 files — the reshape fails
rather than yielding the 2-run mean. -/
theorem C8_missing_file_robustness :
    (∀ fs1 fs2 : List (Option (List Char)),
        aggregateExperimental (fs1 ++ none :: fs2) =
          aggregateExperimental (fs1 ++ fs2))
    ∧ parse_experimental_log none = emptyTestData
    ∧ (∀ files : List (Option (List Char)),
        aggregateExperimental files =
          ⟨((presentContents files).map
              fun c => (parseExperimentalContent c).test1).flatten,
           ((presentContents files).map
              fun c => (parseExperimentalContent c).test2).flatten,
           ((presentContents files).map
              fun c => (parseExperimentalContent c).test3).flatten,
           ((presentContents files).map
              fun c => (parseExperimentalContent c).unknown).flatten⟩)
    ∧ (∀ a b : List Char,
        aggregateExperimental [some a, none, some b] =
          aggregateExperimental [some a, some b])
    ∧ (∀ experimental : List Rat, ∀ num_params : Nat,
        experimental.length < num_params * runs_per_param →
        process_experimental_data experimental num_params = none) := by
  have hpresent : ∀ fs1 fs2 : List (Option (List Char)),
      presentContents (fs1 ++ none :: fs2) = presentContents (fs1 ++ fs2) := by
    intro fs1 fs2
    simp [presentContents]
  refine ⟨?_, rfl, aggregateExperimental_eq, ?_, ?_⟩
  · intro fs1 fs2
    rw [aggregateExperimental_eq, aggregateExperimental_eq, hpresent]
  · intro a b
    rw [aggregateExperimental_eq, aggregateExperimental_eq,
      show ([some a, none, some b] : List (Option (List Char))) =
        [some a] ++ none :: [some b] from rfl,
      hpresent]
    rfl
  · intro xs n h
    have hc : ¬ (xs.take (n * runs_per_param)).length = n * runs_per_param := by
      rw [List.length_take]
      omega
    simp only [process_experimental_data, if_neg hc]

/-- Counterexample to C8 as stated: with 2 of the 3 expected files present,
each contributing one duration for the same point, the aggregate correctly
holds exactly those two durations, but the program computes no mean for
that point — the plotter's reshape with its hard-coded 5 runs per
parameter fails (`none`) on 2 runs, so the run does not yield `correct
means for every point covered by the available files`. -/
theorem C8_missing_file_robustness_counterexample :
    (aggregateExperimental
        [some (litList "[7] Complete transmission in 901 ms"),
         some (litList "[7] Complete transmission in 890 ms"),
         none]).test2 = [901, 890]
    ∧ process_experimental_data
        (aggregateExperimental
          [some (litList "[7] Complete transmission in 901 ms"),
           some (litList "[7] Complete transmission in 890 ms"),
           none]).test2 1 = none := by
  exact ⟨by decide, by decide⟩

/-- Witness for C8's short-input clause at 2 durations for one point. -/
theorem C8_missing_file_robustness_witness :
    process_experimental_data [(901 : Rat), 890] 1 = none :=
  C8_missing_file_robustness.2.2.2.2 [(901 : Rat), 890] 1 (by decide)

/-- C6 (amended): in `experiment/CP1_client.py` any non-zero exit code,
60-second timeout expiry, or exception makes `run_client_test` terminate
the whole run with `sys.exit(1)`, while a zero exit code lets the suite
proceed; the `CP1_data_autoscript.py` driver instead logs the failure and
proceeds with the remaining test points for every outcome. -/
theorem C6_failure_fatal_amended :
    (∀ o : TransferOutcome, o ≠ TransferOutcome.exited 0 →
        run_client_test_experiment o = DriverAction.exitOne)
    ∧ run_client_test_experiment (TransferOutcome.exited 0) = DriverAction.proceed
    ∧ (∀ o : TransferOutcome, run_client_test_autoscript o = DriverAction.proceed)
    ∧ clientTimeoutSeconds = 60 := by
  refine ⟨?_, rfl, ?_, rfl⟩
  · intro o ho
    cases o with
    | exited c =>
      simp only [run_client_test_experiment]
      rw [if_neg]
      intro hc
      exact ho (by rw [hc])
    | timedOut => rfl
    | excepted => rfl
  · intro o
    cases o <;> rfl

/-- Counterexample to C6 as stated: the `CP1_data_autoscript.py` driver
does not exit with code 1 on a failed transfer (non-zero exit code 1);
it proceeds with the remaining test points. -/
theorem C6_failure_fatal_counterexample :
    run_client_test_autoscript (TransferOutcome.exited 1) = DriverAction.proceed
    ∧ DriverAction.proceed ≠ DriverAction.exitOne := by
  exact ⟨rfl, by decide⟩

/-- Witness for C6 at the timeout outcome. -/
theorem C6_failure_fatal_witness :
    run_client_test_experiment TransferOutcome.timedOut = DriverAction.exitOne :=
  C6_failure_fatal_amended.1 TransferOutcome.timedOut (by decide)

/-- C7: `n ≥ 1` calls of the test-id allocator within one process lifetime
return exactly 0, 1, ..., n-1 in call order: the first call returns 0, the
values are strictly increasing, and no value repeats. -/
theorem C7_test_id_allocator (n : Nat) (h : 1 ≤ n) :
    allocatedIds n = List.range n
    ∧ (allocatedIds n).head? = some 0
    ∧ List.Pairwise (· < ·) (allocatedIds n)
    ∧ (allocatedIds n).Nodup := by
  refine ⟨allocatedIds_eq_range n, ?_, ?_, ?_⟩
  · cases n with
    | zero => omega
    | succ n => rfl
  · exact allocRun_pairwise n 0
  · exact List.Pairwise.imp (fun h => ne_of_lt h) (allocRun_pairwise n 0)

/-- Witness for C7 at n = 3. -/
theorem C7_test_id_allocator_witness :
    allocatedIds 3 = [0, 1, 2]
    ∧ (allocatedIds 3).head? = some 0
    ∧ List.Pairwise (· < ·) (allocatedIds 3) :=
  ⟨by decide, (C7_test_id_allocator 3 (by decide)).2.1,
    (C7_test_id_allocator 3 (by decide)).2.2.1⟩

/-- C9: the classifier is deterministic and idempotent — re-running it on
the same log content yields identical results — and each group is the
in-order projection of the recognized matches (no duplication, no
reordering): the four output lists partition the match list, so their
lengths sum to the number of recognized records. -/
theorem C9_classifier_idempotent (content : List Char) :
    parseExperimentalContent content = parseExperimentalContent content
    ∧ (parseExperimentalContent content).test1 =
        groupDurations TestGroup.fileSize (findMatches content)
    ∧ (parseExperimentalContent content).test2 =
        groupDurations TestGroup.bandwidth (findMatches content)
    ∧ (parseExperimentalContent content).test3 =
        groupDurations TestGroup.delay (findMatches content)
    ∧ (parseExperimentalContent content).unknown =
        unknownIndices (findMatches content)
    ∧ (parseExperimentalContent content).test1.length +
        (parseExperimentalContent content).test2.length +
        (parseExperimentalContent content).test3.length +
        (parseExperimentalContent content).unknown.length =
        (findMatches content).length := by
  have h := classifyMatches_eq (findMatches content)
  refine ⟨rfl, ?_, ?_, ?_, ?_, ?_⟩
  · rw [parseExperimentalContent, h]
  · rw [parseExperimentalContent, h]
  · rw [parseExperimentalContent, h]
  · rw [parseExperimentalContent, h]
  · rw [parseExperimentalContent, h]
    exact classify_conservation (findMatches content)

/-- C10: the identifier in the second bracket of each server log record is
the receive loop's own counter: it starts at 0 and increments once per
listener return, so the record carrying index `i` is exactly the
`(i+1)`-th loop record appended to the log; the sequence of indices equals
`range n`, which is also exactly what the Driver's allocator produces, so
the join between the two sides is purely positional. -/
theorem C10_server_index_counter (events : List (List Char × List Char)) :
    (serverRun events).length = events.length
    ∧ (serverRun events).map ServerLogLine.index = List.range events.length
    ∧ (∀ k, k < events.length →
        ((serverRun events).getD k ⟨[], 0, []⟩).index = k)
    ∧ (serverRun events).map ServerLogLine.index = allocatedIds events.length := by
  have hmap : (serverRun events).map ServerLogLine.index = List.range events.length := by
    rw [serverRun, serverLoop_indices]
    simp
  refine ⟨serverLoop_length events 0, hmap, ?_, ?_⟩
  · intro k hk
    have := serverLoop_getD events 0 k hk
    simpa using this
  · rw [hmap, allocatedIds_eq_range]

/-- Witness for C10 on a two-event run at position 1. -/
theorem C10_server_index_counter_witness :
    ((serverRun [(litList "2024-01-01 00:00:00", litList "Complete transmission in 901 ms"),
        (litList "2024-01-01 00:00:01", litList "Complete transmission in 890 ms")]).getD 1
      ⟨[], 0, []⟩).index = 1 :=
  (C10_server_index_counter _).2.2.1 1 (by decide)

end FoggyTCP
